import Mathlib

/-!
Verification development for the PWR-Clock time-tracking bot (src/main.py).

Shallow embedding conventions:
* UTC instants are modelled as `Int` microseconds since the Unix epoch
  (Python `datetime` compares at microsecond resolution; `datetime.now(pytz.UTC)`
  yields such an instant).  Durations (`timedelta.total_seconds()`) are kept at
  exact microsecond precision instead of floats; division by 3600 into "hours"
  is strictly monotone, so comparisons and orderings are unaffected.
* A pytz timezone is modelled by its fixed UTC offset in seconds east
  (`tz.localize(naive).astimezone(UTC)` subtracts the offset); DST transitions
  are outside the scope of the claims checked here.
* Python dicts (`users`, `time_entries`) are association lists in insertion
  order, matching the guaranteed iteration order of Python 3.7+ dicts:
  updating an existing key keeps its position, a fresh key is appended.
* `datetime` objects are always truthy in Python, so `entry.get('in_time')`
  on an entry whose `in_time` is a datetime is the constant `True`; entries
  created by this program always carry an `in_time`, which is therefore a
  plain field here while `out_time` stays optional.
-/

namespace PWRClock

/-- One time entry: `{'in_time': datetime, 'out_time': datetime-or-None}`
(src/main.py, `clock_in`).  Instants are UTC microseconds since the epoch. -/
structure Entry where
  in_time : Int
  out_time : Option Int
deriving DecidableEq, Repr

/-- One record of the `users` table (src/main.py, `start`): display names,
timezone (modelled by its UTC offset in seconds), role flags and the raw
ISO-8601 registration timestamp string. -/
structure User where
  name : String
  full_name : String
  timezone : Int
  is_admin : Bool
  registered_date : String
  is_employee : Bool
deriving DecidableEq, Repr

/-- The `users` dict keyed by Telegram user id, in insertion order. -/
abbrev UsersMap := List (Nat × User)

/-- The `time_entries` dict keyed by Telegram user id, in insertion order. -/
abbrev EntriesMap := List (Nat × List Entry)

/-- Python dict lookup `m[k]` / `m.get(k)` (first matching key). -/
def lookupKey {α : Type} (m : List (Nat × α)) (k : Nat) : Option α :=
  match m with
  | [] => none
  | (k', v) :: rest => if k' = k then some v else lookupKey rest k

/-- Python dict assignment `m[k] = v`: an existing key keeps its position,
a fresh key is appended at the end (dict insertion-order semantics). -/
def setKey {α : Type} (m : List (Nat × α)) (k : Nat) (v : α) : List (Nat × α) :=
  match m with
  | [] => [(k, v)]
  | (k', v') :: rest => if k' = k then (k, v) :: rest else (k', v') :: setKey rest k v

/-- `if user_id not in time_entries: time_entries[user_id] = []`
(src/main.py lines 127-128). -/
def ensureKey (entries : EntriesMap) (uid : Nat) : EntriesMap :=
  match lookupKey entries uid with
  | none => setKey entries uid []
  | some _ => entries

/-- Outcome of a mutating command: the reply category, the resulting
`time_entries` table, and whether `save_data()` was called. -/
structure OpOutcome (ρ : Type) where
  result : ρ
  entries : EntriesMap
  saved : Bool
deriving DecidableEq, Repr

/-- Reply categories of `clock_in` (src/main.py lines 109-153). -/
inductive ClockInResult where
  | unregistered
  | adminExempt
  | alreadyClockedIn (since : Int)
  | clockedIn
deriving DecidableEq, Repr

/-- Reply categories of `clock_out` (src/main.py lines 155-207). -/
inductive ClockOutResult where
  | unregistered
  | adminExempt
  | noActiveSession
  | alreadyClockedOut
  | clockedOut (durationMicros : Int)
deriving DecidableEq, Repr

/-- `clock_in` (src/main.py lines 109-153): registration check, admin-mode
exemption, ensure the user's entry list exists, refuse when the last entry is
still open (`time_entries[uid] and last.get('in_time') and not
last.get('out_time')`; `in_time` datetimes are always truthy), otherwise append
`{'in_time': now, 'out_time': None}` and persist. -/
def clockIn (users : UsersMap) (uid : Nat) (now : Int) (entries : EntriesMap) :
    OpOutcome ClockInResult :=
  match lookupKey users uid with
  | none => ⟨.unregistered, entries, false⟩
  | some u =>
    if u.is_admin && !u.is_employee then ⟨.adminExempt, entries, false⟩
    else
      match ((lookupKey (ensureKey entries uid) uid).getD []).getLast? with
      | some last =>
        if last.out_time = none then
          ⟨.alreadyClockedIn last.in_time, ensureKey entries uid, false⟩
        else
          ⟨.clockedIn,
            setKey (ensureKey entries uid) uid
              (((lookupKey (ensureKey entries uid) uid).getD []) ++ [⟨now, none⟩]),
            true⟩
      | none =>
        ⟨.clockedIn,
          setKey (ensureKey entries uid) uid
            (((lookupKey (ensureKey entries uid) uid).getD []) ++ [⟨now, none⟩]),
          true⟩

/-- `clock_out` (src/main.py lines 155-207): registration check, admin-mode
exemption, refuse when the user has no entries or the last one is already
closed, otherwise set `out_time = now` on the last entry, persist, and report
the duration. -/
def clockOut (users : UsersMap) (uid : Nat) (now : Int) (entries : EntriesMap) :
    OpOutcome ClockOutResult :=
  match lookupKey users uid with
  | none => ⟨.unregistered, entries, false⟩
  | some u =>
    if u.is_admin && !u.is_employee then ⟨.adminExempt, entries, false⟩
    else
      match lookupKey entries uid with
      | none => ⟨.noActiveSession, entries, false⟩
      | some l =>
        match l.getLast? with
        | none => ⟨.noActiveSession, entries, false⟩
        | some last =>
          match last.out_time with
          | some _ => ⟨.alreadyClockedOut, entries, false⟩
          | none =>
            ⟨.clockedOut (now - last.in_time),
              setKey entries uid (l.dropLast ++ [⟨last.in_time, some now⟩]), true⟩

/-- The confirmed administrative clear (src/main.py lines 620-622 and 707-709):
`for uid in time_entries: time_entries[uid] = []`. -/
def clearAll (entries : EntriesMap) : EntriesMap :=
  entries.map (fun p => (p.1, ([] : List Entry)))

/-- Entry tables reachable from the empty ledger by any sequence of
`clock_in`, `clock_out` and confirmed administrative clears, with the `users`
table, acting user and clock free at every step. -/
inductive Reachable : EntriesMap → Prop where
  | empty : Reachable []
  | stepIn (users : UsersMap) (uid : Nat) (now : Int) {es : EntriesMap} :
      Reachable es → Reachable (clockIn users uid now es).entries
  | stepOut (users : UsersMap) (uid : Nat) (now : Int) {es : EntriesMap} :
      Reachable es → Reachable (clockOut users uid now es).entries
  | stepClear {es : EntriesMap} : Reachable es → Reachable (clearAll es)

/-- Every entry other than the last is closed. -/
def openOnlyLast (l : List Entry) : Bool :=
  l.dropLast.all (fun e => e.out_time.isSome)

/-- The ledger invariant: every user's entry list has all but the last entry
closed. -/
def LedgerInv (es : EntriesMap) : Prop :=
  ∀ p ∈ es, openOnlyLast p.2 = true

theorem mem_setKey {α : Type} {m : List (Nat × α)} {k : Nat} {v : α} {p : Nat × α}
    (h : p ∈ setKey m k v) : p ∈ m ∨ p = (k, v) := by
  induction m with
  | nil => simpa [setKey] using h
  | cons q rest ih =>
    obtain ⟨k', v'⟩ := q
    by_cases hk : k' = k
    · rw [setKey, if_pos hk] at h
      rcases List.mem_cons.mp h with h | h
      · exact Or.inr h
      · exact Or.inl (List.mem_cons_of_mem _ h)
    · rw [setKey, if_neg hk] at h
      rcases List.mem_cons.mp h with h | h
      · exact Or.inl (by simp [h])
      · rcases ih h with h' | h'
        · exact Or.inl (List.mem_cons_of_mem _ h')
        · exact Or.inr h'

theorem lookupKey_mem {α : Type} {m : List (Nat × α)} {k : Nat} {v : α}
    (h : lookupKey m k = some v) : (k, v) ∈ m := by
  induction m with
  | nil => simp [lookupKey] at h
  | cons q rest ih =>
    obtain ⟨k', v'⟩ := q
    by_cases hk : k' = k
    · rw [lookupKey, if_pos hk] at h
      subst hk
      obtain rfl : v' = v := by injection h
      exact List.mem_cons_self _ _
    · rw [lookupKey, if_neg hk] at h
      exact List.mem_cons_of_mem _ (ih h)

theorem all_closed_of_openOnlyLast {l : List Entry} {last : Entry}
    (hinv : openOnlyLast l = true) (hlast : l.getLast? = some last)
    (hclosed : last.out_time.isSome) : l.all (fun e => e.out_time.isSome) = true := by
  rcases List.eq_nil_or_concat' l with rfl | ⟨l', a, rfl⟩
  · simp
  · rw [List.getLast?_concat] at hlast
    obtain rfl : a = last := by injection hlast
    unfold openOnlyLast at hinv
    rw [List.dropLast_concat] at hinv
    simp [List.all_append, hinv, hclosed]

theorem openOnlyLast_concat {l : List Entry} {e : Entry}
    (h : l.all (fun x => x.out_time.isSome) = true) :
    openOnlyLast (l ++ [e]) = true := by
  unfold openOnlyLast
  rw [List.dropLast_concat]
  exact h

theorem LedgerInv_ensureKey {es : EntriesMap} (uid : Nat) (hinv : LedgerInv es) :
    LedgerInv (ensureKey es uid) := by
  unfold ensureKey
  cases hl : lookupKey es uid with
  | none =>
    intro p hp
    rcases mem_setKey hp with hp' | hp'
    · exact hinv p hp'
    · subst hp'; simp [openOnlyLast]
  | some _ => exact hinv

theorem openOnlyLast_of_lookup {es : EntriesMap} (hinv : LedgerInv es)
    {uid : Nat} : openOnlyLast ((lookupKey es uid).getD []) = true := by
  cases hl : lookupKey es uid with
  | none => simp [openOnlyLast]
  | some l => exact hinv _ (lookupKey_mem hl)

theorem LedgerInv_clockIn (users : UsersMap) (uid : Nat) (now : Int)
    {es : EntriesMap} (hinv : LedgerInv es) :
    LedgerInv (clockIn users uid now es).entries := by
  have hens : LedgerInv (ensureKey es uid) := LedgerInv_ensureKey uid hinv
  have hl_inv : openOnlyLast ((lookupKey (ensureKey es uid) uid).getD []) = true :=
    openOnlyLast_of_lookup hens
  unfold clockIn
  split
  · exact hinv
  next u hu =>
    split
    next hadm => exact hinv
    next hadm =>
      split
      next last hlast =>
        split
        next hopen => exact hens
        next hopen =>
          intro p hp
          rcases mem_setKey hp with hp' | hp'
          · exact hens p hp'
          · subst hp'
            exact openOnlyLast_concat
              (all_closed_of_openOnlyLast hl_inv hlast (Option.isSome_iff_ne_none.mpr hopen))
      next hlast =>
        intro p hp
        rcases mem_setKey hp with hp' | hp'
        · exact hens p hp'
        · subst hp'
          rw [List.getLast?_eq_none_iff.mp hlast]
          simp [openOnlyLast]

theorem LedgerInv_clockOut (users : UsersMap) (uid : Nat) (now : Int)
    {es : EntriesMap} (hinv : LedgerInv es) :
    LedgerInv (clockOut users uid now es).entries := by
  unfold clockOut
  split
  · exact hinv
  next u hu =>
    split
    next hadm => exact hinv
    next hadm =>
      split
      next hl => exact hinv
      next l hl =>
        split
        next hlast => exact hinv
        next last hlast =>
          split
          next => exact hinv
          next hout =>
            intro p hp
            rcases mem_setKey hp with hp' | hp'
            · exact hinv p hp'
            · subst hp'
              have hl_inv : openOnlyLast l = true := hinv _ (lookupKey_mem hl)
              exact openOnlyLast_concat hl_inv

theorem LedgerInv_clearAll {es : EntriesMap} :
    LedgerInv (clearAll es) := by
  intro p hp
  unfold clearAll at hp
  rcases List.mem_map.mp hp with ⟨q, _, rfl⟩
  simp [openOnlyLast]

theorem LedgerInv_reachable {es : EntriesMap} (h : Reachable es) : LedgerInv es := by
  induction h with
  | empty => intro p hp; simp at hp
  | stepIn users uid now _ ih => exact LedgerInv_clockIn users uid now ih
  | stepOut users uid now _ ih => exact LedgerInv_clockOut users uid now ih
  | stepClear _ _ => exact LedgerInv_clearAll

/-- C1: in every entry table reachable from the empty ledger by any sequence
of `clock_in`, `clock_out` and administrative clear operations, each user has
at most one entry with an absent `out_time`, and if one exists it is the last
element of that user's entry sequence. -/
theorem claim_C1_open_entry_unique_and_last {es : EntriesMap} (h : Reachable es)
    (uid : Nat) (l : List Entry) (hmem : (uid, l) ∈ es) :
    (l.filter (fun e => e.out_time = none)).length ≤ 1 ∧
      (∀ i (hi : i < l.length), (l.get ⟨i, hi⟩).out_time = none → i + 1 = l.length) := by
  have hinv : openOnlyLast l = true := LedgerInv_reachable h (uid, l) hmem
  constructor
  · rcases List.eq_nil_or_concat' l with rfl | ⟨l', a, rfl⟩
    · simp
    · unfold openOnlyLast at hinv
      rw [List.dropLast_concat] at hinv
      have hnil : l'.filter (fun e => decide (e.out_time = none)) = [] := by
        rw [List.filter_eq_nil_iff]
        intro e he
        have := (List.all_eq_true.mp hinv) e he
        simp only [decide_eq_true_eq]
        intro hc
        rw [hc] at this
        simp at this
      rw [List.filter_append, hnil]
      simpa using List.length_filter_le _ [a]
  · intro i hi hopen
    by_contra hne
    have hlt : i + 1 < l.length := by omega
    have hdrop : i < l.dropLast.length := by
      rw [List.length_dropLast]; omega
    have hget : l.dropLast.get ⟨i, hdrop⟩ = l.get ⟨i, hi⟩ := by
      simp only [List.get_eq_getElem]
      exact List.getElem_dropLast l i hdrop
    have := (List.all_eq_true.mp hinv) _ (List.get_mem l.dropLast _ hdrop)
    rw [hget, hopen] at this
    simp at this

/-- A fixed sample user used by concrete witnesses below. -/
def sampleEmployee : User :=
  { name := "A", full_name := "A B", timezone := 3600, is_admin := false,
    registered_date := "2025-01-01T00:00:00+00:00", is_employee := true }

/-- Witness for C1: the invariant holds concretely after one `clock_in` from
the empty ledger. -/
theorem claim_C1_witness :
    (([Entry.mk 5 none].filter (fun e => e.out_time = none)).length ≤ 1 ∧
      0 + 1 = [Entry.mk 5 none].length) := by
  have hreach : Reachable (clockIn [(1, sampleEmployee)] 1 5 []).entries :=
    Reachable.stepIn [(1, sampleEmployee)] 1 5 Reachable.empty
  have hmem : ((1 : Nat), [Entry.mk 5 none]) ∈ (clockIn [(1, sampleEmployee)] 1 5 []).entries := by
    decide
  have h := claim_C1_open_entry_unique_and_last hreach 1 [Entry.mk 5 none] hmem
  exact ⟨h.1, h.2 0 (by decide) rfl⟩


theorem ensureKey_of_lookup_some {entries : EntriesMap} {uid : Nat} {l : List Entry}
    (h : lookupKey entries uid = some l) : ensureKey entries uid = entries := by
  unfold ensureKey
  rw [h]

/-- C9: when `clock_in` hits the already-clocked-in guard, and when `clock_out`
hits the no-entries or already-closed guards, the reply is the corresponding
error, the entry table is returned unchanged and `save_data` is not called. -/
theorem claim_C9_error_atomicity (users : UsersMap) (uid : Nat) (now : Int)
    (entries : EntriesMap) (u : User)
    (hu : lookupKey users uid = some u)
    (hadm : (u.is_admin && !u.is_employee) = false) :
    (∀ l last, lookupKey entries uid = some l → l.getLast? = some last →
        last.out_time = none →
        clockIn users uid now entries =
          ⟨.alreadyClockedIn last.in_time, entries, false⟩) ∧
    (lookupKey entries uid = none ∨ lookupKey entries uid = some [] →
        clockOut users uid now entries = ⟨.noActiveSession, entries, false⟩) ∧
    (∀ l last t, lookupKey entries uid = some l → l.getLast? = some last →
        last.out_time = some t →
        clockOut users uid now entries = ⟨.alreadyClockedOut, entries, false⟩) := by
  refine ⟨?_, ?_, ?_⟩
  · intro l last hl hlast hopen
    have hek : ensureKey entries uid = entries := ensureKey_of_lookup_some hl
    unfold clockIn
    rw [hu]
    simp only [hadm, Bool.false_eq_true, if_false, hek, hl, Option.getD_some, hlast, hopen,
      if_pos rfl]
    simp
  · intro hl
    unfold clockOut
    rw [hu]
    rcases hl with hl | hl <;>
      simp only [hadm, Bool.false_eq_true, if_false, hl, List.getLast?_nil]
  · intro l last t hl hlast hout
    unfold clockOut
    rw [hu]
    simp only [hadm, Bool.false_eq_true, if_false, hl, hlast, hout]

/-- Witness for C9: all three error-atomicity cases at concrete states. -/
theorem claim_C9_witness :
    (clockIn [(1, sampleEmployee)] 1 99 [(1, [Entry.mk 5 none])] =
        ⟨.alreadyClockedIn 5, [(1, [Entry.mk 5 none])], false⟩) ∧
    (clockOut [(1, sampleEmployee)] 1 99 [(2, [Entry.mk 5 none])] =
        ⟨.noActiveSession, [(2, [Entry.mk 5 none])], false⟩) ∧
    (clockOut [(1, sampleEmployee)] 1 99 [(1, [Entry.mk 5 (some 7)])] =
        ⟨.alreadyClockedOut, [(1, [Entry.mk 5 (some 7)])], false⟩) := by
  refine ⟨?_, ?_, ?_⟩
  · exact (claim_C9_error_atomicity [(1, sampleEmployee)] 1 99 [(1, [Entry.mk 5 none])]
      sampleEmployee rfl rfl).1 [Entry.mk 5 none] (Entry.mk 5 none) rfl rfl rfl
  · exact (claim_C9_error_atomicity [(1, sampleEmployee)] 1 99 [(2, [Entry.mk 5 none])]
      sampleEmployee rfl rfl).2.1 (Or.inl rfl)
  · exact (claim_C9_error_atomicity [(1, sampleEmployee)] 1 99 [(1, [Entry.mk 5 (some 7)])]
      sampleEmployee rfl rfl).2.2 [Entry.mk 5 (some 7)] (Entry.mk 5 (some 7)) 7 rfl rfl rfl

/-- The full state effect of the confirmed clear: the `users` table is not
touched by the clearing block, every entry list is reset to `[]`, and the
result is persisted (src/main.py lines 706-718 and 619-630). -/
def clearLogsConfirmed (users : UsersMap) (entries : EntriesMap) :
    UsersMap × EntriesMap × Bool :=
  (users, clearAll entries, true)

/-- C10: the confirmed administrative clear maps every user-id key of the
entry table to the empty list while preserving the key set (and order), and
leaves the users table (all fields of every user) unchanged. -/
theorem claim_C10_clear_frame (users : UsersMap) (entries : EntriesMap) :
    (clearLogsConfirmed users entries).1 = users ∧
    (clearAll entries).map Prod.fst = entries.map Prod.fst ∧
    ∀ p ∈ clearAll entries, p.2 = ([] : List Entry) := by
  refine ⟨rfl, ?_, ?_⟩
  · simp [clearAll, List.map_map]
  · intro p hp
    rcases List.mem_map.mp hp with ⟨q, _, rfl⟩
    rfl

/-- `today_start` of `status` (src/main.py line 375):
`datetime.now(pytz.UTC).replace(hour=0, minute=0, second=0, microsecond=0)`;
zeroing the civil time-of-day fields of a UTC instant is flooring to the UTC
day boundary (86400e6 microseconds). -/
def utcMidnight (now : Int) : Int :=
  now - now % 86400000000

/-- The duration the `status` loop assigns to one entry (src/main.py lines
380-385): closed entries use `out_time - in_time`, the entry structurally
equal to the user's last entry (`entry == last_entry`) uses `now - in_time`,
earlier open entries are skipped. -/
def statusDur (lastE : Entry) (now : Int) (e : Entry) : Option Int :=
  match e.out_time with
  | some o => some (o - e.in_time)
  | none => if e = lastE then some (now - e.in_time) else none

/-- The `status` accumulation loop over `time_entries[user_id]` (src/main.py
lines 376-387): only entries with `in_time >= today_start` contribute. -/
def statusScan (lastE : Entry) (now todayStart : Int) : List Entry → Int
  | [] => 0
  | e :: rest =>
    (if todayStart ≤ e.in_time then (statusDur lastE now e).getD 0 else 0) +
      statusScan lastE now todayStart rest

/-- Today's total of `get_status` in seconds-at-microsecond-precision
(src/main.py lines 371-389); `status` returns before this loop when the user
has no entries. -/
def statusTodaySeconds (entries : List Entry) (now : Int) : Int :=
  match entries.getLast? with
  | none => 0
  | some lastE => statusScan lastE now (utcMidnight now) entries

theorem statusScan_eq_sum (lastE : Entry) (now ts : Int) (l : List Entry) :
    statusScan lastE now ts l =
      ((l.filter (fun e => decide (ts ≤ e.in_time))).map
        (fun e => (statusDur lastE now e).getD 0)).sum := by
  induction l with
  | nil => simp [statusScan]
  | cons e rest ih =>
    by_cases h : ts ≤ e.in_time
    · simp [statusScan, h, ih, List.filter_cons]
    · simp [statusScan, h, ih, List.filter_cons]

/-- C8: `get_status` computes today's total by summing, over exactly the
entries whose `in_time` is at or after `utcMidnight now`, the per-entry
durations; and `utcMidnight now` is the UTC-midnight boundary of the process's
current UTC day (a multiple of 86400e6 microseconds within a day of `now`),
derived from `now` alone with no user timezone involved. -/
theorem claim_C8_today_total_utc_boundary (entries : List Entry) (lastE : Entry)
    (now : Int) (h : entries.getLast? = some lastE) :
    statusTodaySeconds entries now =
      ((entries.filter (fun e => decide (utcMidnight now ≤ e.in_time))).map
        (fun e => (statusDur lastE now e).getD 0)).sum ∧
    utcMidnight now % 86400000000 = 0 ∧
    utcMidnight now ≤ now ∧ now < utcMidnight now + 86400000000 := by
  refine ⟨?_, ?_, ?_, ?_⟩
  · unfold statusTodaySeconds
    rw [h]
    exact statusScan_eq_sum lastE now (utcMidnight now) entries
  · unfold utcMidnight
    omega
  · unfold utcMidnight
    have := Int.emod_nonneg now (by norm_num : (86400000000 : Int) ≠ 0)
    omega
  · unfold utcMidnight
    have := Int.emod_lt_of_pos now (by norm_num : (0 : Int) < 86400000000)
    omega

/-- Witness for C8 at a concrete state: one closed entry before the boundary,
one open entry after it. -/
theorem claim_C8_witness :
    statusTodaySeconds [Entry.mk (-5) (some 100), Entry.mk 10 none] 50 =
      (([Entry.mk (-5) (some 100), Entry.mk 10 none].filter
          (fun e => decide (utcMidnight 50 ≤ e.in_time))).map
        (fun e => (statusDur (Entry.mk 10 none) 50 e).getD 0)).sum ∧
    utcMidnight 50 % 86400000000 = 0 ∧
    utcMidnight 50 ≤ 50 ∧ (50 : Int) < utcMidnight 50 + 86400000000 :=
  claim_C8_today_total_utc_boundary [Entry.mk (-5) (some 100), Entry.mk 10 none]
    (Entry.mk 10 none) 50 rfl


/-- A calendar date as produced by `datetime.strptime(s, "%Y-%m-%d").date()`. -/
structure Date where
  year : Nat
  month : Nat
  day : Nat
deriving DecidableEq, Repr

/-- Gregorian leap-year rule, as used by Python's `datetime` validation. -/
def isLeapYear (y : Nat) : Bool :=
  y % 4 = 0 && (y % 100 ≠ 0 || y % 400 = 0)

/-- Length of a month, as used by Python's `datetime` validation. -/
def daysInMonth (y m : Nat) : Nat :=
  if m = 2 then (if isLeapYear y then 29 else 28)
  else if m = 4 || m = 6 || m = 9 || m = 11 then 30
  else 31

def isDigitChar (c : Char) : Bool :=
  48 ≤ c.toNat && c.toNat ≤ 57

def digitVal (c : Char) : Nat :=
  c.toNat - 48

/-- One-or-two-digit numeric field of `strptime` (`%m` / `%d` match one or
two digits, preferring two). -/
def parseTwoOrOne : List Char → Option (Nat × List Char)
  | a :: b :: rest =>
    if isDigitChar a then
      if isDigitChar b then some (digitVal a * 10 + digitVal b, rest)
      else some (digitVal a, b :: rest)
    else none
  | [a] => if isDigitChar a then some (digitVal a, []) else none
  | [] => none

/-- Model of `datetime.strptime(s, "%Y-%m-%d").date()` (src/main.py lines
472-477): four-digit year, dash, one-or-two-digit month, dash, one-or-two-digit
day, nothing trailing, with the `date` constructor's range validation —
`MINYEAR = 1 ≤ year` (the four-digit field already caps it at
`MAXYEAR = 9999`), month 1-12 and day within the month; any failure raises
`ValueError` (here: `none`).  Digits are modelled over ASCII: Python's regex
`\d` also matches other Unicode decimal digits, which are outside the
modelled argument alphabet. -/
def parseDate (s : String) : Option Date :=
  match s.data with
  | y1 :: y2 :: y3 :: y4 :: '-' :: rest =>
    if isDigitChar y1 && isDigitChar y2 && isDigitChar y3 && isDigitChar y4 then
      let y := ((digitVal y1 * 10 + digitVal y2) * 10 + digitVal y3) * 10 + digitVal y4
      match parseTwoOrOne rest with
      | some (m, rest2) =>
        match rest2 with
        | '-' :: rest3 =>
          match parseTwoOrOne rest3 with
          | some (d, []) =>
            if 1 ≤ y && 1 ≤ m && m ≤ 12 && 1 ≤ d && d ≤ daysInMonth y m then
              some ⟨y, m, d⟩
            else none
          | _ => none
        | _ => none
      | none => none
    else none
  | _ => none

/-- The date-argument convention of `report` and `team_report` (src/main.py
lines 463-480): no argument means today twice, one argument a single date,
two or more arguments a range (extra arguments ignored); any parse failure is
the invalid-date outcome. -/
def parseDateArgs (args : List String) (today : Date) : Option (Date × Date) :=
  match args with
  | [] => some (today, today)
  | [a] =>
    match parseDate a with
    | some d => some (d, d)
    | none => none
  | a :: b :: _ =>
    match parseDate a, parseDate b with
    | some d1, some d2 => some (d1, d2)
    | _, _ => none

/-- Days from the Unix epoch to a civil date (proleptic Gregorian), the
standard days-from-civil computation; used to place `datetime.combine(date,
time)` on the microsecond timeline. -/
def dateToEpochDays (dt : Date) : Int :=
  let y : Int := if dt.month ≤ 2 then (dt.year : Int) - 1 else (dt.year : Int)
  let era : Int := (if 0 ≤ y then y else y - 399) / 400
  let yoe : Int := y - era * 400
  let mp : Int := if 2 < dt.month then (dt.month : Int) - 3 else (dt.month : Int) + 9
  let doy : Int := (153 * mp + 2) / 5 + (dt.day : Int) - 1
  let doe : Int := yoe * 365 + yoe / 4 - yoe / 100 + doy
  era * 146097 + doe - 719468

/-- `user_tz.localize(datetime.combine(start_date, datetime.min.time()))
.astimezone(pytz.UTC)` (src/main.py lines 484-485): local midnight of the
date, shifted to UTC by the timezone offset (seconds east). -/
def startDatetimeUtc (tz : Int) (d : Date) : Int :=
  dateToEpochDays d * 86400000000 - tz * 1000000

/-- `user_tz.localize(datetime.combine(end_date, datetime.max.time()))
.astimezone(pytz.UTC)` (src/main.py lines 487-488): local 23:59:59.999999 of
the date, shifted to UTC. -/
def endDatetimeUtc (tz : Int) (d : Date) : Int :=
  dateToEpochDays d * 86400000000 + 86399999999 - tz * 1000000

/-- The per-entry date-range filter of `report` and `team_report`
(src/main.py line 496): an entry is kept unless
`in_time > end_datetime or in_time < start_datetime`. -/
def inReportRange (s e t : Int) : Bool :=
  !(decide (e < t) || decide (t < s))

/-- The effect of one iteration of the `report` aggregation loop (src/main.py
lines 494-520) on one entry: skipped when out of range, a closed entry yields
`out_time - in_time`, an entry structurally equal to the user's last entry
(`entry == time_entries[target_user_id][-1]`) yields `now - in_time`, any
other open entry is skipped. -/
def reportItem (lastE : Option Entry) (now s e : Int) (entry : Entry) :
    Option (Entry × Int) :=
  if inReportRange s e entry.in_time then
    match entry.out_time with
    | some o => some (entry, o - entry.in_time)
    | none => if some entry = lastE then some (entry, now - entry.in_time) else none
  else none

/-- The `report` aggregation loop (src/main.py lines 491-520), returning the
in-range display entries in order together with the accumulated total. -/
def reportScan (lastE : Option Entry) (now s e : Int) : List Entry → List (Entry × Int) × Int
  | [] => ([], 0)
  | entry :: rest =>
    let r := reportScan lastE now s e rest
    if inReportRange s e entry.in_time then
      match entry.out_time with
      | some o => ((entry, o - entry.in_time) :: r.1, (o - entry.in_time) + r.2)
      | none =>
        if some entry = lastE then
          ((entry, now - entry.in_time) :: r.1, (now - entry.in_time) + r.2)
        else r
    else r

/-- Outcome of the `report` core (src/main.py lines 458-522). -/
inductive ReportResult where
  | noEntries
  | invalidDateFormat
  | ok (entriesInRange : List (Entry × Int)) (totalMicros : Int)
deriving DecidableEq, Repr

/-- `report` (src/main.py lines 458-522) for an already-resolved target user,
in source order: the no-time-entries check first, then date-argument parsing,
then the timezone-derived UTC bounds and the aggregation loop.  `tz` is the
target user's configured timezone offset and `today` is
`datetime.now().date()`. -/
def generateReport (tz : Int) (entries : List Entry) (args : List String)
    (today : Date) (now : Int) : ReportResult :=
  if entries = [] then .noEntries
  else
    match parseDateArgs args today with
    | none => .invalidDateFormat
    | some (d1, d2) =>
      let r := reportScan entries.getLast? now (startDatetimeUtc tz d1)
        (endDatetimeUtc tz d2) entries
      .ok r.1 r.2

/-- Counterexample for C2: with invalid date text `"bad"`, a target with no
entries gets the no-entries response, not `InvalidDateFormat` — the outcome of
an invalid-date invocation depends on the ledger contents, because `report`
checks (reads) the target's entry list before parsing the date arguments. -/
theorem claim_C2_counterexample :
    generateReport 0 [] ["bad"] ⟨2025, 1, 1⟩ 0 = .noEntries ∧
    generateReport 0 [] ["bad"] ⟨2025, 1, 1⟩ 0 ≠ .invalidDateFormat ∧
    generateReport 0 [Entry.mk 0 (some 1)] ["bad"] ⟨2025, 1, 1⟩ 0 = .invalidDateFormat := by
  refine ⟨by decide, by decide, by decide⟩

/-- C2 (amended): `report` checks whether the target's entry sequence is
empty before parsing dates; a target with no entries always gets the
no-entries response, and only when entries exist does invalid date text fail
with `InvalidDateFormat` (which then happens before the date-range filtering
reads individual entries). -/
theorem claim_C2_amended_invalid_date (tz : Int) (entries : List Entry)
    (args : List String) (today : Date) (now : Int) :
    (entries = [] → generateReport tz entries args today now = .noEntries) ∧
    (entries ≠ [] → parseDateArgs args today = none →
      generateReport tz entries args today now = .invalidDateFormat) := by
  constructor
  · intro h
    subst h
    rfl
  · intro hne hparse
    unfold generateReport
    rw [if_neg hne, hparse]

/-- Witness for the amended C2 at concrete inputs. -/
theorem claim_C2_amended_witness :
    generateReport 0 [] ["bad"] ⟨2025, 1, 1⟩ 0 = .noEntries ∧
    generateReport 0 [Entry.mk 0 none] ["bad"] ⟨2025, 1, 1⟩ 0 = .invalidDateFormat :=
  ⟨(claim_C2_amended_invalid_date 0 [] ["bad"] ⟨2025, 1, 1⟩ 0).1 rfl,
    (claim_C2_amended_invalid_date 0 [Entry.mk 0 none] ["bad"] ⟨2025, 1, 1⟩ 0).2
      (by decide) (by decide)⟩

theorem inReportRange_iff (s e t : Int) : inReportRange s e t = true ↔ (s ≤ t ∧ t ≤ e) := by
  unfold inReportRange
  simp only [Bool.not_eq_true', Bool.or_eq_false_iff, decide_eq_false_iff_not, not_lt]
  omega

/-- C4: the date-range filter of `generate_report` is inclusive at both ends
of the UTC interval derived from the target user's timezone: an entry whose
`in_time` equals local midnight of `start_date` passes, one microsecond
earlier fails, and every `in_time` between the bounds (hence at or before
local 23:59:59.999999 of `end_date`) passes. -/
theorem claim_C4_range_inclusive (tz : Int) (d1 d2 : Date) (t : Int)
    (h12 : dateToEpochDays d1 ≤ dateToEpochDays d2) :
    inReportRange (startDatetimeUtc tz d1) (endDatetimeUtc tz d2)
        (startDatetimeUtc tz d1) = true ∧
    inReportRange (startDatetimeUtc tz d1) (endDatetimeUtc tz d2)
        (startDatetimeUtc tz d1 - 1) = false ∧
    (startDatetimeUtc tz d1 ≤ t → t ≤ endDatetimeUtc tz d2 →
      inReportRange (startDatetimeUtc tz d1) (endDatetimeUtc tz d2) t = true) := by
  refine ⟨?_, ?_, ?_⟩
  · rw [inReportRange_iff]
    unfold startDatetimeUtc endDatetimeUtc
    omega
  · cases hb : inReportRange (startDatetimeUtc tz d1) (endDatetimeUtc tz d2)
        (startDatetimeUtc tz d1 - 1) with
    | false => rfl
    | true =>
      exfalso
      have := (inReportRange_iff _ _ _).mp hb
      omega
  · intro h1 h2
    rw [inReportRange_iff]
    exact ⟨h1, h2⟩

/-- Witness for C4 at a concrete timezone, date and instant. -/
theorem claim_C4_witness :
    inReportRange (startDatetimeUtc 3600 ⟨2025, 4, 20⟩) (endDatetimeUtc 3600 ⟨2025, 4, 20⟩)
        (startDatetimeUtc 3600 ⟨2025, 4, 20⟩) = true ∧
    inReportRange (startDatetimeUtc 3600 ⟨2025, 4, 20⟩) (endDatetimeUtc 3600 ⟨2025, 4, 20⟩)
        (startDatetimeUtc 3600 ⟨2025, 4, 20⟩ - 1) = false ∧
    inReportRange (startDatetimeUtc 3600 ⟨2025, 4, 20⟩) (endDatetimeUtc 3600 ⟨2025, 4, 20⟩)
        (startDatetimeUtc 3600 ⟨2025, 4, 20⟩ + 5) = true := by
  have h := claim_C4_range_inclusive 3600 ⟨2025, 4, 20⟩ ⟨2025, 4, 20⟩
    (startDatetimeUtc 3600 ⟨2025, 4, 20⟩ + 5) (by decide)
  exact ⟨h.1, h.2.1, h.2.2 (by decide) (by decide)⟩

theorem reportScan_eq (lastE : Option Entry) (now s e : Int) (l : List Entry) :
    reportScan lastE now s e l = (l.filterMap (reportItem lastE now s e),
      ((l.filterMap (reportItem lastE now s e)).map Prod.snd).sum) := by
  induction l with
  | nil => simp [reportScan]
  | cons entry rest ih =>
    simp only [reportScan, ih, List.filterMap_cons]
    by_cases hr : inReportRange s e entry.in_time = true
    · cases ho : entry.out_time with
      | some o => simp [reportItem, hr, ho]
      | none =>
        by_cases hl : some entry = lastE
        · simp [reportItem, hr, ho, hl]
        · simp [reportItem, hr, ho, hl]
    · simp [reportItem, hr]

/-- Counterexample for C5: with two structurally equal open entries, the
*earlier* open entry — which is not the chronologically last entry — is also
included and contributes `now - in_time`, because the loop tests structural
equality `entry == time_entries[target_user_id][-1]`, not position: the
report lists two entries and doubles the total. -/
theorem claim_C5_counterexample :
    generateReport 0 [Entry.mk 0 none, Entry.mk 0 none] [] ⟨1970, 1, 1⟩ 3600000000 =
      .ok [(Entry.mk 0 none, 3600000000), (Entry.mk 0 none, 3600000000)] 7200000000 := by
  decide

/-- C5 (amended): an in-range open entry is included exactly when it is
structurally equal to the user's last entry (which for pairwise-distinct
entries — in particular under the at-most-one-open invariant — means being
the chronologically last entry), with duration `now - in_time`; other open
entries contribute nothing; every in-range closed entry contributes
`out_time - in_time` wherever `out_time` falls.  Formally the report list and
total are exactly the `reportItem` characterization. -/
theorem claim_C5_amended_active_entry (tz : Int) (entries : List Entry)
    (args : List String) (today : Date) (now : Int) (d1 d2 : Date)
    (hne : entries ≠ []) (hparse : parseDateArgs args today = some (d1, d2)) :
    generateReport tz entries args today now =
      .ok (entries.filterMap (reportItem entries.getLast? now
            (startDatetimeUtc tz d1) (endDatetimeUtc tz d2)))
        (((entries.filterMap (reportItem entries.getLast? now
            (startDatetimeUtc tz d1) (endDatetimeUtc tz d2))).map Prod.snd).sum) := by
  unfold generateReport
  rw [if_neg hne, hparse]
  dsimp only
  rw [reportScan_eq]

/-- Witness for the amended C5 at a concrete ledger. -/
theorem claim_C5_amended_witness :
    generateReport 0 [Entry.mk 0 (some 600000000), Entry.mk 1000000000 none] [] ⟨1970, 1, 1⟩
        3600000000 =
      .ok ([Entry.mk 0 (some 600000000), Entry.mk 1000000000 none].filterMap
            (reportItem ([Entry.mk 0 (some 600000000), Entry.mk 1000000000 none]).getLast?
              3600000000 (startDatetimeUtc 0 ⟨1970, 1, 1⟩) (endDatetimeUtc 0 ⟨1970, 1, 1⟩)))
        ((([Entry.mk 0 (some 600000000), Entry.mk 1000000000 none].filterMap
            (reportItem ([Entry.mk 0 (some 600000000), Entry.mk 1000000000 none]).getLast?
              3600000000 (startDatetimeUtc 0 ⟨1970, 1, 1⟩) (endDatetimeUtc 0 ⟨1970, 1, 1⟩))).map
          Prod.snd).sum) :=
  claim_C5_amended_active_entry 0 [Entry.mk 0 (some 600000000), Entry.mk 1000000000 none]
    [] ⟨1970, 1, 1⟩ 3600000000 ⟨1970, 1, 1⟩ ⟨1970, 1, 1⟩ (by decide) (by decide)


/-- One row of the team-report statistics (src/main.py lines 954-961):
user id, display name, total in the range (kept at exact microsecond
precision; Python divides by 3600 into float hours, a strictly monotone map),
entry count, and whether the user's last-ever entry is open. -/
structure EmpStat where
  user_id : Nat
  name : String
  hoursMicros : Int
  entriesCount : Nat
  active : Bool
deriving DecidableEq, Repr

/-- `emp_entries and not emp_entries[-1].get('out_time')` (src/main.py line
960), as a boolean. -/
def activeFlag (l : List Entry) : Bool :=
  match l.getLast? with
  | none => false
  | some la => la.out_time.isNone

/-- The per-employee accumulation loop of `team_report` (src/main.py lines
939-951): total seconds (at microsecond precision) and entry count over the
in-range entries, with the same structural-equality active-session test as
`report`. -/
def empTotal (lastE : Option Entry) (now s e : Int) : List Entry → Int × Nat
  | [] => (0, 0)
  | entry :: rest =>
    let r := empTotal lastE now s e rest
    if inReportRange s e entry.in_time then
      match entry.out_time with
      | some o => (o - entry.in_time + r.1, r.2 + 1)
      | none => if some entry = lastE then (now - entry.in_time + r.1, r.2 + 1) else r
    else r

/-- The per-user body of the `team_report` collection loop (src/main.py lines
931-961): skip unregistered ids and non-employees, compute the in-range
total, and keep the user only when the total is strictly positive.  `bounds`
gives the UTC interval used for a given user id. -/
def statFor (users : UsersMap) (now : Int) (bounds : Nat → Int × Int)
    (p : Nat × List Entry) : Option EmpStat :=
  match lookupKey users p.1 with
  | none => none
  | some u =>
    if u.is_employee then
      if 0 < (empTotal p.2.getLast? now (bounds p.1).1 (bounds p.1).2 p.2).1 then
        some ⟨p.1, u.full_name,
          (empTotal p.2.getLast? now (bounds p.1).1 (bounds p.1).2 p.2).1,
          (empTotal p.2.getLast? now (bounds p.1).1 (bounds p.1).2 p.2).2,
          activeFlag p.2⟩
      else none
    else none

/-- The `employee_stats` list before sorting, in `time_entries` iteration
(encounter) order (src/main.py lines 929-961). -/
def teamCollect (users : UsersMap) (now : Int) (bounds : Nat → Int × Int)
    (entries : EntriesMap) : List EmpStat :=
  entries.filterMap (statFor users now bounds)

/-- The comparison used by `employee_stats.sort(key=lambda x: x['hours'],
reverse=True)` (src/main.py line 964): descending by total. -/
def statHoursGe (a b : EmpStat) : Prop :=
  b.hoursMicros ≤ a.hoursMicros

instance : DecidableRel statHoursGe :=
  fun a b => Int.decLe b.hoursMicros a.hoursMicros

instance : IsTotal EmpStat statHoursGe :=
  ⟨fun a b => le_total b.hoursMicros a.hoursMicros⟩

instance : IsTrans EmpStat statHoursGe :=
  ⟨fun _ _ _ h1 h2 => le_trans h2 h1⟩

/-- `team_report` (src/main.py lines 887-1006): the date bounds are derived
once from `users[user_id]['timezone']` — the *invoking admin's* timezone —
and applied to every employee; the collected stats are sorted descending by
hours.  Python's `list.sort` is stable and `reverse=True` preserves the
relative order of equal keys, which is exactly `List.insertionSort` with the
descending comparison. -/
def teamReportStats (users : UsersMap) (adminTz : Int) (d1 d2 : Date) (now : Int)
    (entries : EntriesMap) : List EmpStat :=
  List.insertionSort statHoursGe
    (teamCollect users now
      (fun _ => (startDatetimeUtc adminTz d1, endDatetimeUtc adminTz d2)) entries)

/-- The quick-drill-down targets: `employee_stats[:5]` (src/main.py line 998),
while the full sorted list appears in the textual body. -/
def teamReportButtons (stats : List EmpStat) : List EmpStat :=
  stats.take 5

/-- Modelled from the spec (§4.3, for comparison with the code): the same
team aggregation but with the inclusive date range interpreted per target
user in that target user's configured timezone. -/
def teamStatsSpecPerUser (users : UsersMap) (d1 d2 : Date) (now : Int)
    (entries : EntriesMap) : List EmpStat :=
  List.insertionSort statHoursGe
    (teamCollect users now
      (fun empId =>
        (startDatetimeUtc (((lookupKey users empId).map User.timezone).getD 0) d1,
          endDatetimeUtc (((lookupKey users empId).map User.timezone).getD 0) d2)) entries)

theorem lookupKey_map {α β : Type} (f : α → β) (m : List (Nat × α)) (k : Nat) :
    lookupKey (m.map (fun q => (q.1, f q.2))) k = (lookupKey m k).map f := by
  induction m with
  | nil => rfl
  | cons q rest ih =>
    by_cases hk : q.1 = k
    · simp [lookupKey, hk]
    · simp [lookupKey, hk, ih]

/-- Counterexample for C3: an employee in timezone UTC+1 with a closed entry
at 23:30-23:45 UTC on Jan 1 1970 (00:30-00:45 Jan 2 local).  A team report
for Jan 2 1970 invoked by an admin configured at UTC excludes the employee
entirely, while the per-target-user interpretation the claim describes would
include the 0.25 h entry. -/
theorem claim_C3_counterexample :
    teamReportStats [(2, sampleEmployee)] 0 ⟨1970, 1, 2⟩ ⟨1970, 1, 2⟩ 90000000000
        [(2, [Entry.mk 84600000000 (some 85500000000)])] = [] ∧
    teamStatsSpecPerUser [(2, sampleEmployee)] ⟨1970, 1, 2⟩ ⟨1970, 1, 2⟩ 90000000000
        [(2, [Entry.mk 84600000000 (some 85500000000)])] =
      [⟨2, "A B", 900000000, 1, false⟩] := by
  refine ⟨by decide, by decide⟩

/-- Replace a user's configured timezone. -/
def setTz (tz : Int) (u : User) : User :=
  { u with timezone := tz }

/-- C3 (amended): the team report interprets the inclusive date range once in
the invoking admin's configured timezone and applies that single UTC interval
to every employee — it behaves exactly as the per-target-user rule would if
every user's configured timezone were replaced by the admin's. -/
theorem claim_C3_amended_admin_timezone (users : UsersMap) (adminTz : Int)
    (d1 d2 : Date) (now : Int) (entries : EntriesMap) :
    teamReportStats users adminTz d1 d2 now entries =
      teamStatsSpecPerUser (users.map (fun q => (q.1, setTz adminTz q.2)))
        d1 d2 now entries := by
  unfold teamReportStats teamStatsSpecPerUser teamCollect
  congr 1
  refine List.filterMap_congr (fun p _ => ?_)
  unfold statFor
  simp only [lookupKey_map (setTz adminTz)]
  cases hu : lookupKey users p.1 with
  | none => rfl
  | some u => simp [setTz]


theorem filter_key_orderedInsert (hv : Int) (a : EmpStat) (l : List EmpStat) :
    (l.orderedInsert statHoursGe a).filter (fun st => decide (st.hoursMicros = hv)) =
      ((a :: l).filter (fun st => decide (st.hoursMicros = hv))) := by
  induction l with
  | nil => rfl
  | cons b rest ih =>
    by_cases hab : statHoursGe a b
    · have hstep : (b :: rest).orderedInsert statHoursGe a = a :: b :: rest := by
        simp [List.orderedInsert, hab]
      rw [hstep]
    · have hstep : (b :: rest).orderedInsert statHoursGe a =
          b :: rest.orderedInsert statHoursGe a := by
        simp [List.orderedInsert, hab]
      rw [hstep]
      have hlt : a.hoursMicros < b.hoursMicros := by
        unfold statHoursGe at hab
        omega
      by_cases hbv : b.hoursMicros = hv
      · have hav : ¬a.hoursMicros = hv := by omega
        simp [List.filter_cons, hbv, hav, ih]
      · by_cases hav : a.hoursMicros = hv
        · simp [List.filter_cons, hbv, hav, ih]
        · simp [List.filter_cons, hbv, hav, ih]

theorem filter_key_insertionSort (hv : Int) (l : List EmpStat) :
    (List.insertionSort statHoursGe l).filter (fun st => decide (st.hoursMicros = hv)) =
      l.filter (fun st => decide (st.hoursMicros = hv)) := by
  induction l with
  | nil => rfl
  | cons a rest ih =>
    rw [List.insertionSort, filter_key_orderedInsert]
    by_cases hav : a.hoursMicros = hv <;> simp [List.filter_cons, hav, ih]

theorem statFor_some {users : UsersMap} {now : Int} {bounds : Nat → Int × Int}
    {p : Nat × List Entry} {st : EmpStat} (h : statFor users now bounds p = some st) :
    st.user_id = p.1 ∧
      0 < (empTotal p.2.getLast? now (bounds p.1).1 (bounds p.1).2 p.2).1 := by
  unfold statFor at h
  split at h
  next => exact absurd h (by simp)
  next u hu =>
    split at h
    next hemp =>
      split at h
      next hpos =>
        obtain rfl := Option.some.inj h
        exact ⟨rfl, hpos⟩
      next => exact absurd h (by simp)
    next => exact absurd h (by simp)

theorem nodup_keys_val_eq {entries : EntriesMap} (hnd : (entries.map Prod.fst).Nodup)
    {k : Nat} {a b : List Entry} (ha : (k, a) ∈ entries) (hb : (k, b) ∈ entries) :
    a = b := by
  induction entries with
  | nil => simp at ha
  | cons q rest ih =>
    simp only [List.map_cons, List.nodup_cons] at hnd
    rcases List.mem_cons.mp ha with ha' | ha' <;> rcases List.mem_cons.mp hb with hb' | hb'
    · exact congrArg Prod.snd (ha'.trans hb'.symm)
    · exfalso
      apply hnd.1
      rw [← ha']
      exact List.mem_map.mpr ⟨(k, b), hb', rfl⟩
    · exfalso
      apply hnd.1
      rw [← hb']
      exact List.mem_map.mpr ⟨(k, a), ha', rfl⟩
    · exact ih hnd.2 ha' hb'

theorem claim_C7_team_exclusion_sorting (users : UsersMap) (adminTz : Int)
    (d1 d2 : Date) (now : Int) (entries : EntriesMap)
    (hnd : (entries.map Prod.fst).Nodup) :
    (∀ empId l, (empId, l) ∈ entries →
        (empTotal l.getLast? now (startDatetimeUtc adminTz d1)
            (endDatetimeUtc adminTz d2) l).1 = 0 →
        ∀ st ∈ teamReportStats users adminTz d1 d2 now entries, st.user_id ≠ empId) ∧
    List.Sorted statHoursGe (teamReportStats users adminTz d1 d2 now entries) ∧
    (∀ hv : Int,
      (teamReportStats users adminTz d1 d2 now entries).filter
          (fun st => decide (st.hoursMicros = hv)) =
        (teamCollect users now
            (fun _ => (startDatetimeUtc adminTz d1, endDatetimeUtc adminTz d2)) entries).filter
          (fun st => decide (st.hoursMicros = hv))) ∧
    teamReportButtons (teamReportStats users adminTz d1 d2 now entries) =
      (teamReportStats users adminTz d1 d2 now entries).take 5 := by
  refine ⟨?_, ?_, ?_, rfl⟩
  · intro empId l hmem htot st hst hid
    have hst' : st ∈ teamCollect users now
        (fun _ => (startDatetimeUtc adminTz d1, endDatetimeUtc adminTz d2)) entries := by
      unfold teamReportStats at hst
      exact (List.mem_insertionSort _).mp hst
    rcases List.mem_filterMap.mp hst' with ⟨p, hp, hsf⟩
    obtain ⟨hid', hpos⟩ := statFor_some hsf
    have hkey : p.1 = empId := hid'.symm.trans hid
    have hpair : (empId, p.2) ∈ entries := by
      rw [← hkey]
      exact hp
    have hval : p.2 = l := nodup_keys_val_eq hnd hpair hmem
    rw [hval] at hpos
    simp only at hpos
    omega
  · exact List.sorted_insertionSort statHoursGe _
  · intro hv
    exact filter_key_insertionSort hv _

theorem claim_C7_witness :
    (EmpStat.mk 2 "A B" 900000000 1 false).user_id ≠ 3 ∧
    List.Sorted statHoursGe
      (teamReportStats [(2, sampleEmployee), (3, sampleEmployee)] 0 ⟨1970, 1, 1⟩ ⟨1970, 1, 1⟩
        3600000000
        [(2, [Entry.mk 0 (some 900000000)]),
          (3, [Entry.mk (-500000000000) (some (-499000000000))])]) ∧
    teamReportButtons
        (teamReportStats [(2, sampleEmployee), (3, sampleEmployee)] 0 ⟨1970, 1, 1⟩ ⟨1970, 1, 1⟩
          3600000000
          [(2, [Entry.mk 0 (some 900000000)]),
            (3, [Entry.mk (-500000000000) (some (-499000000000))])]) =
      (teamReportStats [(2, sampleEmployee), (3, sampleEmployee)] 0 ⟨1970, 1, 1⟩ ⟨1970, 1, 1⟩
          3600000000
          [(2, [Entry.mk 0 (some 900000000)]),
            (3, [Entry.mk (-500000000000) (some (-499000000000))])]).take 5 := by
  have h := claim_C7_team_exclusion_sorting [(2, sampleEmployee), (3, sampleEmployee)] 0
    ⟨1970, 1, 1⟩ ⟨1970, 1, 1⟩ 3600000000
    [(2, [Entry.mk 0 (some 900000000)]),
      (3, [Entry.mk (-500000000000) (some (-499000000000))])] (by decide)
  refine ⟨?_, h.2.1, h.2.2.2⟩
  exact h.1 3 [Entry.mk (-500000000000) (some (-499000000000))] (by decide) (by decide)
    (EmpStat.mk 2 "A B" 900000000 1 false) (by decide)



def digitChar (n : Nat) : Char := Char.ofNat (48 + n)

theorem digitVal_digitChar {n : Nat} (h : n < 10) : digitVal (digitChar n) = n := by
  interval_cases n <;> decide

structure PyDateTime where
  year : Nat
  month : Nat
  day : Nat
  hour : Nat
  minute : Nat
  second : Nat
  microsecond : Nat
deriving DecidableEq, Repr

def PyDateTime.wf (d : PyDateTime) : Bool :=
  decide (d.year < 10000) && decide (d.month < 100) && decide (d.day < 100) &&
    decide (d.hour < 100) && decide (d.minute < 100) && decide (d.second < 100) &&
    decide (d.microsecond < 1000000)

def pad2 (n : Nat) : List Char := [digitChar (n / 10), digitChar (n % 10)]

def pad4 (n : Nat) : List Char :=
  [digitChar (n / 1000), digitChar (n / 100 % 10), digitChar (n / 10 % 10), digitChar (n % 10)]

def pad6 (n : Nat) : List Char :=
  [digitChar (n / 100000), digitChar (n / 10000 % 10), digitChar (n / 1000 % 10),
    digitChar (n / 100 % 10), digitChar (n / 10 % 10), digitChar (n % 10)]

def p2 (a b : Char) : Nat := digitVal a * 10 + digitVal b

def p4 (a b c d : Char) : Nat := ((digitVal a * 10 + digitVal b) * 10 + digitVal c) * 10 + digitVal d

def p6 (a b c d e f : Char) : Nat :=
  ((((digitVal a * 10 + digitVal b) * 10 + digitVal c) * 10 + digitVal d) * 10 + digitVal e) * 10
    + digitVal f

def isoformat (d : PyDateTime) : List Char :=
  pad4 d.year ++ '-' :: pad2 d.month ++ '-' :: pad2 d.day ++ 'T' :: pad2 d.hour ++
    ':' :: pad2 d.minute ++ ':' :: pad2 d.second ++
    (if d.microsecond = 0 then [] else '.' :: pad6 d.microsecond) ++
    ['+', '0', '0', ':', '0', '0']

def fromIso (s : List Char) : Option PyDateTime :=
  match s with
  | y1 :: y2 :: y3 :: y4 :: c1 :: mo1 :: mo2 :: c2 :: d1 :: d2 :: c3 :: h1 :: h2 :: c4 ::
      mi1 :: mi2 :: c5 :: s1 :: s2 :: rest =>
    if c1 = '-' ∧ c2 = '-' ∧ c3 = 'T' ∧ c4 = ':' ∧ c5 = ':' then
      match rest with
      | [r1, r2, r3, r4, r5, r6] =>
        if r1 = '+' ∧ r2 = '0' ∧ r3 = '0' ∧ r4 = ':' ∧ r5 = '0' ∧ r6 = '0' then
          some ⟨p4 y1 y2 y3 y4, p2 mo1 mo2, p2 d1 d2, p2 h1 h2, p2 mi1 mi2, p2 s1 s2, 0⟩
        else none
      | r0 :: u1 :: u2 :: u3 :: u4 :: u5 :: u6 :: r1 :: r2 :: r3 :: r4 :: r5 :: r6 :: [] =>
        if r0 = '.' ∧ r1 = '+' ∧ r2 = '0' ∧ r3 = '0' ∧ r4 = ':' ∧ r5 = '0' ∧ r6 = '0' then
          some ⟨p4 y1 y2 y3 y4, p2 mo1 mo2, p2 d1 d2, p2 h1 h2, p2 mi1 mi2, p2 s1 s2,
            p6 u1 u2 u3 u4 u5 u6⟩
        else none
      | _ => none
    else none
  | _ => none

theorem p2_pad2 {n : Nat} (h : n < 100) : p2 (digitChar (n / 10)) (digitChar (n % 10)) = n := by
  unfold p2
  rw [digitVal_digitChar (by omega), digitVal_digitChar (by omega)]
  omega

theorem p4_pad4 {n : Nat} (h : n < 10000) :
    p4 (digitChar (n / 1000)) (digitChar (n / 100 % 10)) (digitChar (n / 10 % 10))
      (digitChar (n % 10)) = n := by
  unfold p4
  rw [digitVal_digitChar (by omega), digitVal_digitChar (by omega),
    digitVal_digitChar (by omega), digitVal_digitChar (by omega)]
  omega

theorem p6_pad6 {n : Nat} (h : n < 1000000) :
    p6 (digitChar (n / 100000)) (digitChar (n / 10000 % 10)) (digitChar (n / 1000 % 10))
      (digitChar (n / 100 % 10)) (digitChar (n / 10 % 10)) (digitChar (n % 10)) = n := by
  unfold p6
  rw [digitVal_digitChar (by omega), digitVal_digitChar (by omega),
    digitVal_digitChar (by omega), digitVal_digitChar (by omega),
    digitVal_digitChar (by omega), digitVal_digitChar (by omega)]
  omega

theorem fromIso_isoformat (d : PyDateTime) (h : d.wf = true) : fromIso (isoformat d) = some d := by
  have hb : d.year < 10000 ∧ d.month < 100 ∧ d.day < 100 ∧ d.hour < 100 ∧ d.minute < 100 ∧
      d.second < 100 ∧ d.microsecond < 1000000 := by
    unfold PyDateTime.wf at h
    simp only [Bool.and_eq_true, decide_eq_true_eq] at h
    tauto
  obtain ⟨hy, hmo, hd, hh, hmi, hs, hus⟩ := hb
  by_cases hz : d.microsecond = 0
  · simp only [isoformat, pad4, pad2, pad6, hz, reduceIte, List.cons_append, List.nil_append,
      List.append_nil]
    simp only [fromIso, reduceIte]
    rw [p4_pad4 hy, p2_pad2 hmo, p2_pad2 hd, p2_pad2 hh, p2_pad2 hmi, p2_pad2 hs]
    rw [show (0 : Nat) = d.microsecond from hz.symm]
    simp
  · simp only [isoformat, pad4, pad2, pad6, if_neg hz, List.cons_append, List.nil_append,
      List.append_nil]
    simp only [fromIso, reduceIte]
    rw [p4_pad4 hy, p2_pad2 hmo, p2_pad2 hd, p2_pad2 hh, p2_pad2 hmi, p2_pad2 hs, p6_pad6 hus]
    simp


def natDigitsAux : Nat → Nat → List Nat
  | 0, _ => []
  | _ + 1, 0 => []
  | fuel + 1, n + 1 => ((n + 1) % 10) :: natDigitsAux fuel ((n + 1) / 10)

def natToStr (n : Nat) : List Char :=
  if n = 0 then ['0'] else ((natDigitsAux n n).map digitChar).reverse

def strToNat (s : List Char) : Nat :=
  Nat.ofDigits 10 (s.reverse.map digitVal)

theorem natDigitsAux_ofDigits : ∀ fuel n, n ≤ fuel → Nat.ofDigits 10 (natDigitsAux fuel n) = n := by
  intro fuel
  induction fuel with
  | zero =>
    intro n hn
    interval_cases n
    simp [natDigitsAux]
  | succ f ih =>
    intro n hn
    match n with
    | 0 => simp [natDigitsAux]
    | m + 1 =>
      rw [natDigitsAux, Nat.ofDigits_cons]
      have hdiv : (m + 1) / 10 ≤ f := by omega
      rw [ih _ hdiv]
      omega

theorem natDigitsAux_lt_10 : ∀ fuel n, ∀ d ∈ natDigitsAux fuel n, d < 10 := by
  intro fuel
  induction fuel with
  | zero =>
    intro n d hd
    simp [natDigitsAux] at hd
  | succ f ih =>
    intro n d hd
    match n with
    | 0 => simp [natDigitsAux] at hd
    | m + 1 =>
      rw [natDigitsAux] at hd
      rcases List.mem_cons.mp hd with h | h
      · subst h
        exact Nat.mod_lt _ (by norm_num)
      · exact ih _ d h

theorem strToNat_natToStr (n : Nat) : strToNat (natToStr n) = n := by
  by_cases h : n = 0
  · subst h
    decide
  · unfold natToStr strToNat
    rw [if_neg h, List.reverse_reverse, List.map_map]
    have hmap : List.map (digitVal ∘ digitChar) (natDigitsAux n n) = natDigitsAux n n := by
      rw [show natDigitsAux n n = List.map id (natDigitsAux n n) from (List.map_id _).symm]
      rw [List.map_map]
      refine List.map_congr_left (fun d hd => ?_)
      simp only [Function.comp_apply, id_eq]
      exact digitVal_digitChar (natDigitsAux_lt_10 n n d (by simpa using hd))
    rw [hmap]
    exact natDigitsAux_ofDigits n n le_rfl


/-- One in-memory time entry at the granularity the persistence layer sees:
`datetime` is a civil-field record (`isoformat` renders those fields), the
required `in_time` and optional `out_time` as in src/main.py. -/
structure DtEntry where
  in_time : PyDateTime
  out_time : Option PyDateTime
deriving DecidableEq, Repr

/-- All datetimes of an entry satisfy the rendering bounds (Python's
`datetime` guarantees tighter bounds: year 1-9999, month 1-12, and so on;
only the fixed-width-rendering bounds are needed here). -/
def dtEntryWf (e : DtEntry) : Bool :=
  e.in_time.wf &&
    (match e.out_time with
     | none => true
     | some o => o.wf)

/-- `save_data`'s per-entry serialization (src/main.py lines 60-65):
`{'in_time': entry['in_time'].isoformat() if entry['in_time'] else None,
'out_time': entry['out_time'].isoformat() if entry['out_time'] else None}`;
`in_time` is present (and datetimes are truthy), `out_time` may be null. -/
def serializeEntry (e : DtEntry) : Option (List Char) × Option (List Char) :=
  (some (isoformat e.in_time), e.out_time.map isoformat)

/-- `load_data`'s per-entry parsing (src/main.py lines 42-45):
`datetime.fromisoformat(entry['in_time']) if entry['in_time'] else None`.
A null `in_time` would produce an entry outside the modelled state space and
a malformed timestamp raises `ValueError`; both are mapped to `none` (the
empty string, the only other falsy value, never occurs in serializer
output). -/
def deserializeEntry (p : Option (List Char) × Option (List Char)) : Option DtEntry :=
  match p.1 with
  | none => none
  | some s =>
    match fromIso s with
    | none => none
    | some din =>
      match p.2 with
      | none => some ⟨din, none⟩
      | some so =>
        match fromIso so with
        | none => none
        | some dout => some ⟨din, some dout⟩

/-- A loop building a list where any element may fail, failing the whole
load (Python: an uncaught exception while parsing). -/
def mapOpt {α β : Type} (f : α → Option β) : List α → Option (List β)
  | [] => some []
  | a :: rest =>
    match f a with
    | none => none
    | some b =>
      match mapOpt f rest with
      | none => none
      | some bs => some (b :: bs)

theorem mapOpt_map_of_inverse {α β : Type} (f : β → Option α) (g : α → β) (l : List α)
    (h : ∀ x ∈ l, f (g x) = some x) : mapOpt f (l.map g) = some l := by
  induction l with
  | nil => rfl
  | cons a rest ih =>
    rw [List.map_cons, mapOpt, h a (List.mem_cons_self a rest),
      ih (fun x hx => h x (List.mem_cons_of_mem a hx))]

/-- `save_data` on the `time_entries` table (src/main.py lines 56-65): keys
rendered with `str`, entries serialized in order. -/
def saveEntries (entries : List (Nat × List DtEntry)) :
    List (List Char × List (Option (List Char) × Option (List Char))) :=
  entries.map (fun p => (natToStr p.1, p.2.map serializeEntry))

/-- `load_data` on the `time_entries` table (src/main.py lines 32-46): keys
converted back with `int`, entries parsed in order. -/
def loadEntries (data : List (List Char × List (Option (List Char) × Option (List Char)))) :
    Option (List (Nat × List DtEntry)) :=
  mapOpt (fun q =>
    match mapOpt deserializeEntry q.2 with
    | none => none
    | some es => some (strToNat q.1, es)) data

/-- `save_data` on the `users` table (src/main.py lines 52-54): `json.dump`
turns the integer keys into their decimal strings; the record itself is plain
JSON data and passes through unchanged. -/
def saveUsers (users : UsersMap) : List (List Char × User) :=
  users.map (fun q => (natToStr q.1, q.2))

/-- `load_data` on the `users` table (src/main.py lines 25-28):
`users = dict of int(k) to v for the loaded items`. -/
def loadUsers (data : List (List Char × User)) : UsersMap :=
  data.map (fun q => (strToNat q.1, q.2))

/-- `save_data` (src/main.py lines 51-68) on the whole ledger. -/
def saveDataModel (users : UsersMap) (entries : List (Nat × List DtEntry)) :
    List (List Char × User) × List (List Char × List (Option (List Char) × Option (List Char))) :=
  (saveUsers users, saveEntries entries)

/-- `load_data` (src/main.py lines 22-48) on the whole ledger. -/
def loadDataModel
    (s : List (List Char × User) × List (List Char × List (Option (List Char) × Option (List Char)))) :
    Option (UsersMap × List (Nat × List DtEntry)) :=
  match loadEntries s.2 with
  | none => none
  | some es => some (loadUsers s.1, es)

theorem deserialize_serialize {e : DtEntry} (h : dtEntryWf e = true) :
    deserializeEntry (serializeEntry e) = some e := by
  obtain ⟨din, dout⟩ := e
  unfold dtEntryWf at h
  rw [Bool.and_eq_true] at h
  unfold serializeEntry deserializeEntry
  cases dout with
  | none =>
    simp only [Option.map_none']
    rw [fromIso_isoformat din h.1]
  | some o =>
    simp only [Option.map_some']
    rw [fromIso_isoformat din h.1, fromIso_isoformat o (by simpa using h.2)]

theorem loadUsers_saveUsers (users : UsersMap) : loadUsers (saveUsers users) = users := by
  induction users with
  | nil => rfl
  | cons q rest ih =>
    show (strToNat (natToStr q.1), q.2) :: loadUsers (saveUsers rest) = q :: rest
    rw [strToNat_natToStr, ih]

/-- C6: serializing the ledger with `save_data` and deserializing with
`load_data` yields an in-memory structure field-for-field equal to the
original: the users table is unchanged (integer keys survive the
string-key round trip), every user's entry list keeps its order, and both
closed entries and a null `out_time` survive exactly. -/
theorem claim_C6_round_trip (users : UsersMap) (entries : List (Nat × List DtEntry))
    (hwf : entries.all (fun p => p.2.all dtEntryWf) = true) :
    loadDataModel (saveDataModel users entries) = some (users, entries) := by
  unfold loadDataModel saveDataModel
  have hent : loadEntries (saveEntries entries) = some entries := by
    unfold loadEntries saveEntries
    refine mapOpt_map_of_inverse _ _ entries (fun p hp => ?_)
    have hwf' : ∀ x ∈ p.2, dtEntryWf x = true := by
      have := (List.all_eq_true.mp hwf) p hp
      simpa using (List.all_eq_true.mp this)
    rw [mapOpt_map_of_inverse _ _ p.2 (fun x hx => deserialize_serialize (hwf' x hx))]
    rw [strToNat_natToStr]
  rw [hent, loadUsers_saveUsers]

/-- Witness for C6: a concrete two-user ledger with a closed entry, an open
entry (null `out_time`) and both microsecond shapes round-trips exactly. -/
theorem claim_C6_witness :
    loadDataModel (saveDataModel [(1, sampleEmployee)]
      [(1, [DtEntry.mk ⟨2025, 4, 20, 9, 30, 0, 0⟩ none,
            DtEntry.mk ⟨2025, 4, 19, 8, 0, 5, 123456⟩ (some ⟨2025, 4, 19, 17, 0, 0, 1⟩)]),
       (23, [])]) =
      some ([(1, sampleEmployee)],
        [(1, [DtEntry.mk ⟨2025, 4, 20, 9, 30, 0, 0⟩ none,
              DtEntry.mk ⟨2025, 4, 19, 8, 0, 5, 123456⟩ (some ⟨2025, 4, 19, 17, 0, 0, 1⟩)]),
         (23, [])]) :=
  claim_C6_round_trip [(1, sampleEmployee)]
    [(1, [DtEntry.mk ⟨2025, 4, 20, 9, 30, 0, 0⟩ none,
          DtEntry.mk ⟨2025, 4, 19, 8, 0, 5, 123456⟩ (some ⟨2025, 4, 19, 17, 0, 0, 1⟩)]),
     (23, [])] (by decide)

end PWRClock
